import Mathlib

/- Shallow embedding of the MediaTek EIP93 crypto offload driver cipher path
   (eip93-cipher.c): scatter/gather alignment checking, two-pointer
   descriptor splitting, CTR 32-bit counter-overflow splitting, SA record
   construction, setkey validation, ring backpressure at the crypt entry
   points, and the completion reaper (bounded ready-bit polling, descriptor
   draining, bounce-buffer copy-back with tag endianness correction). -/

/-- AES block size in bytes (crypto/aes.h). -/
def AES_BLOCK_SIZE : ℕ := 16

/-- DES block size in bytes. -/
def DES_BLOCK_SIZE : ℕ := 8

/-- Triple-DES block size in bytes. -/
def DES3_EDE_BLOCK_SIZE : ℕ := 8

/-- Triple-DES key size in bytes. -/
def DES3_EDE_KEY_SIZE : ℕ := 24

/-- DES key size in bytes. -/
def DES_KEY_SIZE : ℕ := 8

/-- RFC3686 nonce size in bytes, stored in the tail of the key. -/
def CTR_RFC3686_NONCE_SIZE : ℕ := 4

/-- Modulus of the 32-bit unsigned arithmetic the driver performs. -/
def U32_MOD : ℕ := 2 ^ 32

/-- Linux error codes used by the driver, as the negative values returned. -/
def EINVAL : Int := -22

/-- Transient try-again return of the busy check at the crypt entry. -/
def EAGAIN : Int := -11

/-- Device-busy return chosen after descriptors were queued past threshold. -/
def EBUSY : Int := -16

/-- In-progress return for an accepted asynchronous request. -/
def EINPROGRESS : Int := -115

/-- Out-of-memory return of the bounce-buffer allocator. -/
def ENOMEM : Int := -12

/-- Kernel IS_ALIGNED macro: x & (a - 1) == 0. All alignments the driver
passes (32, and the block sizes 1, 8 and 16) are powers of two. -/
def IS_ALIGNED (x a : ℕ) : Bool := (x &&& (a - 1)) == 0

/- A scatterlist is modelled as the list of its segments, each segment the
pair (offset, byte length). -/

/-- mtk_is_sg_aligned from eip93-cipher.c: walk the scatterlist; every
segment must have a 32-byte aligned offset; a segment at least as long as
the outstanding length is the cut point and requires the outstanding
length to be blocksize aligned; earlier segments must have blocksize
aligned lengths; running off the list returns false. -/
def mtk_is_sg_aligned : List (ℕ × ℕ) → ℕ → ℕ → Bool
  | [], _, _ => false
  | (off, slen) :: rest, len, blksz =>
    if ! IS_ALIGNED off 32 then false
    else if len ≤ slen then IS_ALIGNED len blksz
    else if ! IS_ALIGNED slen blksz then false
    else mtk_is_sg_aligned rest (len - slen) blksz

/-- Necessary condition that the specification states for a true result of
mtk_is_sg_aligned: the list splits into fully consumed leading segments,
each with a 32-byte aligned offset and a blocksize aligned length,
followed by the segment holding the logical cut point, whose own offset is
32-byte aligned and whose consumed length is blocksize aligned and fits in
the segment. -/
def AlignedNecessary (sg : List (ℕ × ℕ)) (len blksz : ℕ) : Prop :=
  ∃ pre cut rest, sg = pre ++ cut :: rest ∧
    (∀ seg ∈ pre, 32 ∣ seg.1 ∧ blksz ∣ seg.2) ∧
    32 ∣ cut.1 ∧
    (pre.map Prod.snd).sum ≤ len ∧
    len - (pre.map Prod.snd).sum ≤ cut.2 ∧
    blksz ∣ (len - (pre.map Prod.snd).sum)

/- mtk_scatter_combine. The two scatterlists are modelled by the lists of
their DMA segment lengths. The loop state mirrors the C body: nextin and
nextout say whether a cursor has to advance to its next segment first (a
zero-length segment makes the C continue and advance again), remainin and
remainout are the bytes left in the current segments (clamped by the
outstanding count when the segment is entered), and n is the outstanding
byte count. The returned value is the list of per-descriptor-pair lengths;
none models the C code dereferencing past the end of a scatterlist. -/

/-- Loop of mtk_scatter_combine (eip93-cipher.c lines 224 to 291). -/
def scatterLoop (nextin nextout : Bool) (remainin remainout : ℕ)
    (srcs dsts : List ℕ) (n : ℕ) : Option (List ℕ) :=
  if nextin then
    match srcs with
    | [] => none
    | s :: ss =>
      if min s n = 0 then scatterLoop true nextout remainin remainout ss dsts n
      else scatterLoop false nextout (min s n) remainout ss dsts n
  else if nextout then
    match dsts with
    | [] => none
    | d :: ds =>
      if min d n = 0 then scatterLoop false true remainin remainout srcs ds n
      else scatterLoop false false remainin (min d n) srcs ds n
  else
    let len := min remainin remainout
    if n - len = 0 then some [len]
    else if remainin = remainout then
      (scatterLoop true true remainin remainout srcs dsts (n - len)).map (len :: ·)
    else if remainin < remainout then
      (scatterLoop true false remainin (remainout - len) srcs dsts (n - len)).map (len :: ·)
    else
      (scatterLoop false true (remainin - len) remainout srcs dsts (n - len)).map (len :: ·)
  termination_by 3 * (n + srcs.length + dsts.length) + (!nextin).toNat + (!nextout).toNat
  decreasing_by
  all_goals simp_all [List.length_cons]
  all_goals omega

/-- mtk_scatter_combine on the segment length lists: enter the first
segment of each list (clamped by datalen) and run the loop. -/
def mtk_scatter_combine (srcs dsts : List ℕ) (datalen : ℕ) : Option (List ℕ) :=
  match srcs, dsts with
  | s :: ss, d :: ds =>
      scatterLoop false false (min s datalen) (min d datalen) ss ds datalen
  | _, _ => none

/-- Modelled from the spec: the greedy two-pointer merge the specification
describes for submit. Repeatedly emit min of the two current segment
remainders and advance whichever cursor was exhausted. -/
def specMerge : List ℕ → List ℕ → List ℕ
  | s :: ss, d :: ds =>
    if s = d then s :: specMerge ss ds
    else if s < d then s :: specMerge ss ((d - s) :: ds)
    else d :: specMerge ((s - d) :: ss) ds
  | _, _ => []
  termination_by a b => a.length + b.length
  decreasing_by
  all_goals simp [List.length_cons]
  all_goals omega

/-- Per-ring-slot dma_buf flags used by the driver: MTK_DESC_ASYNC is set
on every produced descriptor, MTK_DESC_LAST marks the final descriptor of
a hardware submission and MTK_DESC_FINISH additionally marks the final
submission of the whole request. -/
structure DescFlags where
  async : Bool
  last : Bool
  finish : Bool
deriving DecidableEq

/-- After the descriptor loop the driver ORs MTK_DESC_LAST into the flags
of the last produced slot, and MTK_DESC_FINISH too when complete is true
(eip93-cipher.c lines 298 to 301). -/
def markLast (l : List DescFlags) (complete : Bool) : List DescFlags :=
  match l.getLast? with
  | none => []
  | some b => l.dropLast ++ [⟨b.async, true, b.finish || complete⟩]

/-- mtk_scatter_combine together with the flags it leaves in the ring side
table: every slot is written with MTK_DESC_ASYNC inside the loop, then the
last slot is marked per markLast. -/
def mtk_scatter_combine_flags (srcs dsts : List ℕ) (datalen : ℕ)
    (complete : Bool) : Option (List ℕ × List DescFlags) :=
  match mtk_scatter_combine srcs dsts datalen with
  | none => none
  | some descs =>
      some (descs, markLast (descs.map fun _ => DescFlags.mk true false false) complete)

/-- Result-drain loop of mtk_req_result (eip93-cipher.c lines 556 to 604):
walk the ring slots in order, at most nreq of them, accumulate
should_complete from MTK_DESC_FINISH, and stop right after a slot that
carries MTK_DESC_LAST. Returns (should_complete, descriptors drained). -/
def drainLoop (bufs : List DescFlags) (nreq : ℕ) (sc : Bool) (ndesc : ℕ) :
    Bool × ℕ :=
  match bufs with
  | [] => (sc, ndesc)
  | b :: rest =>
    if ndesc < nreq then
      let sc2 := sc || b.finish
      if b.last then (sc2, ndesc + 1)
      else drainLoop rest nreq sc2 (ndesc + 1)
    else (sc, ndesc)

/-- Bounded ready-bit poll of mtk_req_result (eip93-cipher.c lines 566 to
576): ready t says whether both peReady bits of the result descriptor read
as set on attempt t. Returns the attempt counter when the loop exits. -/
def pollFrom (ready : ℕ → Bool) (t : ℕ) (budget : ℕ) : ℕ :=
  match budget with
  | 0 => t
  | b + 1 => if ready t then t else pollFrom ready (t + 1) b

/-- The driver polls with try bounded by 1000. -/
def mtk_poll (ready : ℕ → Bool) : ℕ := pollFrom ready 0 1000

/-- Per-descriptor outcome of the reaper: after the bounded poll the code
falls through unconditionally and derives the request return value from
the errStatus field of the result descriptor alone (eip93-cipher.c lines
582 to 586); persistent non-readiness is not turned into an error. -/
def mtk_reap_descriptor (ready : ℕ → Bool) (errStatus : ℕ) : Int :=
  let _try := mtk_poll ready
  if errStatus ≠ 0 then EINVAL else 0

/- Byte-level helpers. An IV or buffer is a list of byte values; multi-byte
words are read big endian where the driver uses be32_to_cpu, and little
endian where it memcpys a u32 on the little-endian host. -/

/-- Big-endian 32-bit value of four bytes (be32_to_cpu of a stored word). -/
def be32FromBytes (b0 b1 b2 b3 : ℕ) : ℕ := ((b0 * 256 + b1) * 256 + b2) * 256 + b3

/-- Little-endian byte decomposition of a 32-bit value, the memory image a
u32 has on the little-endian host. -/
def le32ToBytes (x : ℕ) : List ℕ :=
  [x % 256, x / 256 % 256, x / 65536 % 256, x / 16777216 % 256]

/-- Little-endian 32-bit value of the first four bytes of a list (the u32 a
memcpy from those bytes yields on the little-endian host). -/
def le32FromBytes (b : List ℕ) : ℕ :=
  b.getD 0 0 + 256 * b.getD 1 0 + 65536 * b.getD 2 0 + 16777216 * b.getD 3 0

/-- Carry propagation of crypto_inc, on the reversed (least significant
first) byte list: increment and carry while a byte wraps past 255. -/
def incBytesRev : List ℕ → List ℕ
  | [] => []
  | b :: rest => if b + 1 < 256 then (b + 1) :: rest else 0 :: incBytesRev rest

/-- Kernel crypto_inc: increment a fixed-width big-endian counter held as a
byte list. -/
def crypto_inc (a : List ℕ) : List ℕ := (incBytesRev a.reverse).reverse

/- Algorithm selection flags of the transform templates. -/

/-- Cipher selection bits MTK_ALG_AES, MTK_ALG_DES, MTK_ALG_3DES. -/
inductive MtkAlg
  | aes
  | des
  | des3
deriving DecidableEq

/-- Mode selection bits MTK_MODE_ECB, MTK_MODE_CBC, MTK_MODE_CTR. -/
inductive MtkMode
  | ecb
  | cbc
  | ctr
deriving DecidableEq

/-- Hash selection bits, with hashNull for a template without a hash. -/
inductive MtkHash
  | md5
  | sha1
  | sha224
  | sha256
  | hashNull
deriving DecidableEq

/-- The flag word carried by a template and request context, split into its
fields: cipher, mode, hash, the RFC3686 convention bit, the HMAC bit and
the direction bit (encrypt when true, decrypt when false). -/
structure MtkFlags where
  alg : MtkAlg
  mode : MtkMode
  hash : MtkHash
  rfc3686 : Bool
  hmac : Bool
  encrypt : Bool
deriving DecidableEq

/-- Block size chosen from the algorithm flags at the top of mtk_send_req
(default 1 is unreachable because every template sets one of the three
algorithms). -/
def blksizeOfAlg (alg : MtkAlg) : ℕ :=
  match alg with
  | .aes => AES_BLOCK_SIZE
  | .des => DES_BLOCK_SIZE
  | .des3 => DES3_EDE_BLOCK_SIZE

/-- saRecord_s: the fixed-layout SA record, with the bit fields of saCmd0
and saCmd1 spelled as numeric fields and the buffers as byte lists. -/
structure SaRecord where
  ivSource : ℕ
  saveIv : ℕ
  opGroup : ℕ
  opCode : ℕ
  cipher : ℕ
  aesKeyLen : ℕ
  saveHash : ℕ
  hash : ℕ
  hdrProc : ℕ
  padType : ℕ
  extPad : ℕ
  scPad : ℕ
  cipherMode : ℕ
  byteOffset : ℕ
  hashCryptOffset : ℕ
  digestLength : ℕ
  copyPayload : ℕ
  hmac : ℕ
  copyDigest : ℕ
  copyHeader : ℕ
  direction : ℕ
  saKey : List ℕ
  saNonce : ℕ
  seqNumCheck : ℕ
  saSpi : ℕ
  saSeqNumMask0 : ℕ
  saSeqNumMask1 : ℕ
  saIDigest : List ℕ
  saODigest : List ℕ
deriving DecidableEq

/-- mtk_ctx_saRecord (eip93-cipher.c lines 101 to 192): fill the transform
SA record from key material and algorithm flags. Fields the C function
does not assign (direction, the digest seeds, and saNonce outside RFC3686)
keep their previous values. -/
def mtk_ctx_saRecord (sa : SaRecord) (key : List ℕ) (nonce keylen : ℕ)
    (flags : MtkFlags) : SaRecord :=
  { sa with
    ivSource := 2
    saveIv := 1
    opGroup := 0
    opCode := 0
    cipher := (match flags.alg with | .aes => 3 | .des3 => 1 | .des => 0)
    aesKeyLen := (match flags.alg with | .aes => keylen / 8 | _ => sa.aesKeyLen)
    saveHash := (match flags.hash with | .hashNull => 0 | _ => 1)
    hash := (match flags.hash with
      | .sha256 => 3
      | .sha224 => 2
      | .sha1 => 1
      | .md5 => 0
      | .hashNull => 15)
    hdrProc := 0
    padType := 3
    extPad := 0
    scPad := 0
    cipherMode := (match flags.mode with | .ecb => 0 | .cbc => 1 | .ctr => 2)
    byteOffset := 0
    hashCryptOffset := 0
    digestLength := 0
    copyPayload := 0
    hmac := if flags.hmac then 1 else 0
    copyDigest := if flags.hmac then 1 else 0
    copyHeader := if flags.hmac then 1 else 0
    saKey := key
    saNonce := if flags.rfc3686 then nonce else sa.saNonce
    seqNumCheck := 0
    saSpi := 0
    saSeqNumMask0 := 4294967295
    saSeqNumMask1 := 0 }

/-- mtk_skcipher_setkey (eip93-cipher.c lines 727 to 778). keyNull models a
NULL key pointer; desKeyOk is the outcome of the weak-key content check the
DES verify helpers perform for a key of the right length (they reject any
other length regardless of content); fallbackRet is the return of the
fallback setkey. Returns the error code and the transform SA record after
the call. The RFC3686 nonce subtraction is done in 32-bit unsigned
arithmetic like the unsigned int it operates on. -/
def mtk_skcipher_setkey (sa : SaRecord) (flags : MtkFlags) (keyNull : Bool)
    (key : List ℕ) (len : ℕ) (desKeyOk : Bool) (fallbackPresent : Bool)
    (fallbackRet : Int) : Int × SaRecord :=
  if keyNull = true ∨ len = 0 then (EINVAL, sa)
  else
    let keylen := if flags.rfc3686 then (len + U32_MOD - CTR_RFC3686_NONCE_SIZE) % U32_MOD
      else len
    let nonce := if flags.rfc3686 then le32FromBytes (key.drop keylen) else 0
    let ret : Int :=
      match flags.alg with
      | .aes => if keylen = 16 ∨ keylen = 24 ∨ keylen = 32 then 0 else EINVAL
      | .des => if keylen = DES_KEY_SIZE then (if desKeyOk then 0 else EINVAL)
          else EINVAL
      | .des3 => if keylen ≠ DES3_EDE_KEY_SIZE then EINVAL
          else if desKeyOk then 0 else EINVAL
    if ret ≠ 0 then (ret, sa)
    else
      let sa2 := mtk_ctx_saRecord sa key nonce keylen flags
      if fallbackPresent = true ∧ fallbackRet ≠ 0 then (fallbackRet, sa2)
      else (0, sa2)

/-- sg_nents_for_len walk: count segments until len bytes are covered,
returning -EINVAL when the list is exhausted first. -/
def sgNentsFrom : List (ℕ × ℕ) → ℕ → ℕ → Int
  | [], _, _ => EINVAL
  | (_, slen) :: rest, len, acc =>
    if len ≤ slen then Int.ofNat (acc + 1)
    else sgNentsFrom rest (len - slen) (acc + 1)

/-- Kernel sg_nents_for_len: zero for a zero length, otherwise the walk. -/
def sg_nents_for_len (segs : List (ℕ × ℕ)) (len : ℕ) : Int :=
  if len = 0 then 0 else sgNentsFrom segs len 0

/-- Kernel scatterwalk_ffwd: the scatterlist view starting k bytes into the
given one. -/
def scatterwalk_ffwd : List (ℕ × ℕ) → ℕ → List (ℕ × ℕ)
  | [], _ => []
  | (off, slen) :: rest, k =>
    if k < slen then (off + k, slen - k) :: rest
    else scatterwalk_ffwd rest (k - slen)

/-- One hardware submission produced by mtk_send_req: the byte count passed
to mtk_scatter_combine, its complete flag, the saState IV written for it
(none when the slot is left untouched) and the per-descriptor lengths. -/
structure Submission where
  datalen : ℕ
  complete : Bool
  stateIv : Option (List ℕ)
  descLens : List ℕ
deriving DecidableEq

/-- Input of mtk_send_req: request flags and geometry, the request IV as
bytes, the source and destination scatterlists and whether they are the
same list (in-place operation), and the transform SA record. -/
structure SendReqInput where
  flags : MtkFlags
  aead : Bool
  aad : ℕ
  textsize : ℕ
  authsize : ℕ
  reqiv : List ℕ
  srcSegs : List (ℕ × ℕ)
  dstSegs : List (ℕ × ℕ)
  srcEqDst : Bool
  ctxSa : SaRecord
deriving DecidableEq

/-- Observable outcome of mtk_send_req: the return value, which bounce
buffers were allocated, how many dma_map_sg calls ran, the submissions
handed to mtk_scatter_combine, the total command and result descriptor
counts, the transform SA record after the call, and the ring-slot SA copy
written (none when the function returned before writing it). -/
structure SendReqRes where
  ret : Int
  srcBounced : Bool
  dstBounced : Bool
  dmaMapCalls : ℕ
  submissions : List Submission
  commands : ℕ
  results : ℕ
  ctxSaAfter : SaRecord
  ringSa : Option SaRecord
deriving DecidableEq

/-- Early-return result of mtk_send_req: error code reported, nothing
bounced, mapped, written or submitted. -/
def noSendEffects (ret : Int) (sa : SaRecord) : SendReqRes :=
  ⟨ret, false, false, 0, [], 0, 0, sa, none⟩

/-- Ring-slot SA record written by mtk_send_req: a copy of the transform
record with the per-request modifications of eip93-cipher.c lines 458 to
481 (direction bit for decryption, AEAD opcode, HMAC hash offset and
digest length). -/
def sendReqRingSa (inp : SendReqInput) : SaRecord :=
  let sa2 := if inp.flags.encrypt = false then { inp.ctxSa with direction := 1 }
    else inp.ctxSa
  let sa3 := if inp.aead then { sa2 with opCode := 1 } else sa2
  if inp.flags.hmac then
    { sa3 with hashCryptOffset := inp.aad / 4, digestLength := inp.authsize / 4 }
  else sa3

/-- saState IV written for the first submission (eip93-cipher.c lines 483
to 490): the request IV for CBC and for non-RFC3686 CTR (the overflow
variable of the C code), the nonce/IV/1 block for RFC3686, nothing
otherwise. -/
def sendReqStateIv (inp : SendReqInput) : Option (List ℕ) :=
  if inp.flags.mode = MtkMode.cbc ∨
      (inp.flags.mode = MtkMode.ctr ∧ inp.flags.rfc3686 = false) then
    some inp.reqiv
  else if inp.flags.rfc3686 = true then
    some (le32ToBytes inp.ctxSa.saNonce ++ inp.reqiv.take 8 ++ [0, 0, 0, 1])
  else none

/-- Single (non-wrapped) submission tail of mtk_send_req: one
mtk_scatter_combine covering datalen bytes, marked complete. -/
def mtk_send_req_single (inp : SendReqInput) (src_align dst_align : Bool)
    (maps1 datalen : ℕ) (stateIv1 : Option (List ℕ))
    (src1 dst1 : List (ℕ × ℕ)) : SendReqRes :=
  match mtk_scatter_combine (src1.map Prod.snd) (dst1.map Prod.snd) datalen with
  | none =>
    { noSendEffects EINVAL inp.ctxSa with
        srcBounced := src_align = false
        dstBounced := dst_align = false
        dmaMapCalls := maps1
        ringSa := some (sendReqRingSa inp) }
  | some descs =>
    { ret := 0
      srcBounced := src_align = false
      dstBounced := dst_align = false
      dmaMapCalls := maps1
      submissions := [⟨datalen, true, stateIv1, descs⟩]
      commands := descs.length
      results := descs.length
      ctxSaAfter := inp.ctxSa
      ringSa := some (sendReqRingSa inp) }

/-- Counter-wrapped tail of mtk_send_req (eip93-cipher.c lines 493 to
520): a first incomplete submission of offset bytes with the original IV,
then a second complete submission of the remaining datalen - offset bytes
starting at the forwarded scatterlists with the manually incremented IV
iv2 in a fresh saState slot, and a second round of DMA mapping. -/
def mtk_send_req_wrapped (inp : SendReqInput) (src_align dst_align : Bool)
    (srcIsDst : Bool) (maps1 datalen offset : ℕ)
    (stateIv1 : Option (List ℕ)) (iv2 : List ℕ)
    (src1 dst1 : List (ℕ × ℕ)) : SendReqRes :=
  match mtk_scatter_combine (src1.map Prod.snd) (dst1.map Prod.snd) offset with
  | none =>
    { noSendEffects EINVAL inp.ctxSa with
        srcBounced := src_align = false
        dstBounced := dst_align = false
        dmaMapCalls := maps1
        ringSa := some (sendReqRingSa inp) }
  | some descs1 =>
    let src2 := scatterwalk_ffwd src1 offset
    let dst2 := if srcIsDst = true then src2 else scatterwalk_ffwd dst1 offset
    let maps2 := maps1 + (if srcIsDst = true then 1 else 2)
    match mtk_scatter_combine (src2.map Prod.snd) (dst2.map Prod.snd)
        (datalen - offset) with
    | none =>
      { noSendEffects EINVAL inp.ctxSa with
          srcBounced := src_align = false
          dstBounced := dst_align = false
          dmaMapCalls := maps2
          submissions := [⟨offset, false, stateIv1, descs1⟩]
          ringSa := some (sendReqRingSa inp) }
    | some descs2 =>
      { ret := 0
        srcBounced := src_align = false
        dstBounced := dst_align = false
        dmaMapCalls := maps2
        submissions := [⟨offset, false, stateIv1, descs1⟩,
          ⟨datalen - offset, true, some iv2, descs2⟩]
        commands := descs1.length + descs2.length
        results := descs1.length + descs2.length
        ctxSaAfter := inp.ctxSa
        ringSa := some (sendReqRingSa inp) }

/-- Total number of source bytes of the request, tag included for AEAD
decryption (eip93-cipher.c lines 349 to 354). -/
def sendReqTotlenSrc (inp : SendReqInput) : ℕ :=
  if inp.aead ∧ inp.flags.encrypt = false then
    inp.aad + inp.textsize + inp.authsize
  else inp.aad + inp.textsize

/-- Total number of destination bytes, tag included for AEAD encryption. -/
def sendReqTotlenDst (inp : SendReqInput) : ℕ :=
  if inp.aead ∧ inp.flags.encrypt = true then
    inp.aad + inp.textsize + inp.authsize
  else inp.aad + inp.textsize

/-- Source alignment decision: AEAD always bounces, otherwise
mtk_is_sg_aligned decides (eip93-cipher.c lines 392 to 398). -/
def sendReqSrcAlign (inp : SendReqInput) : Bool :=
  if inp.aead then false
  else mtk_is_sg_aligned inp.srcSegs (sendReqTotlenSrc inp)
    (blksizeOfAlg inp.flags.alg)

/-- Destination alignment decision. -/
def sendReqDstAlign (inp : SendReqInput) : Bool :=
  if inp.aead then false
  else mtk_is_sg_aligned inp.dstSegs (sendReqTotlenDst inp)
    (blksizeOfAlg inp.flags.alg)

/-- The bounce buffer mtk_make_sg_cpy builds: one segment at offset 0
sized assoclen + textsize + authsize. -/
def sendReqBounceSeg (inp : SendReqInput) : List (ℕ × ℕ) :=
  [(0, inp.aad + inp.textsize + inp.authsize)]

/-- Source scatterlist actually submitted: the request list when aligned,
the bounce buffer otherwise. -/
def sendReqSrc1 (inp : SendReqInput) : List (ℕ × ℕ) :=
  if sendReqSrcAlign inp = true then inp.srcSegs else sendReqBounceSeg inp

/-- Destination scatterlist actually submitted. -/
def sendReqDst1 (inp : SendReqInput) : List (ℕ × ℕ) :=
  if sendReqDstAlign inp = true then inp.dstSegs else sendReqBounceSeg inp

/-- Whether the submitted source and destination are the same list: an
in-place request with neither side bounced. -/
def sendReqSrcIsDst (inp : SendReqInput) : Bool :=
  inp.srcEqDst && sendReqSrcAlign inp && sendReqDstAlign inp

/-- dma_map_sg calls before the first submission: one for an in-place
unbounced request, two otherwise (eip93-cipher.c lines 418 to 421). -/
def sendReqMaps1 (inp : SendReqInput) : ℕ :=
  if sendReqSrcIsDst inp = true then 1 else 2

/-- Initial 32-bit counter: big-endian value of IV bytes 12 to 15
(be32_to_cpu(iv[3])). -/
def sendReqCtr0 (inp : SendReqInput) : ℕ :=
  be32FromBytes (inp.reqiv.getD 12 0) (inp.reqiv.getD 13 0)
    (inp.reqiv.getD 14 0) (inp.reqiv.getD 15 0)

/-- Whole AES blocks the source will consume:
DIV_ROUND_UP(totlen_src, AES_BLOCK_SIZE). -/
def sendReqBlocks (inp : SendReqInput) : ℕ :=
  (sendReqTotlenSrc inp + AES_BLOCK_SIZE - 1) / AES_BLOCK_SIZE

/-- The 32-bit value start + blocks - 1 computed in unsigned arithmetic;
overflow shows as this value being below start. -/
def sendReqEnd (inp : SendReqInput) : ℕ :=
  (sendReqCtr0 inp + sendReqBlocks inp + U32_MOD - 1) % U32_MOD

/-- Bytes consumable before the counter wraps:
AES_BLOCK_SIZE * -start in 32-bit unsigned arithmetic. -/
def sendReqWrapOffset (inp : SendReqInput) : ℕ :=
  (AES_BLOCK_SIZE * ((U32_MOD - sendReqCtr0 inp) % U32_MOD)) % U32_MOD

/-- IV of the second sub-request: counter word forced to 0xffffffff, then
crypto_inc over the whole 16-byte block (eip93-cipher.c lines 441 to 443). -/
def sendReqWrapIv (inp : SendReqInput) : List ℕ :=
  crypto_inc (inp.reqiv.take 12 ++ [255, 255, 255, 255])

/-- Submission phase of mtk_send_req, after the early validity checks:
counter-overflow detection for CTR mode without RFC3686, then the
counter-wrapped tail or the single-submission tail. -/
def mtk_send_req_submit (inp : SendReqInput) : SendReqRes :=
  if inp.flags.mode = MtkMode.ctr ∧ inp.flags.rfc3686 = false ∧
      sendReqEnd inp < sendReqCtr0 inp then
    mtk_send_req_wrapped inp (sendReqSrcAlign inp) (sendReqDstAlign inp)
      (sendReqSrcIsDst inp) (sendReqMaps1 inp) (inp.aad + inp.textsize)
      (sendReqWrapOffset inp) (sendReqStateIv inp) (sendReqWrapIv inp)
      (sendReqSrc1 inp) (sendReqDst1 inp)
  else
    mtk_send_req_single inp (sendReqSrcAlign inp) (sendReqDstAlign inp)
      (sendReqMaps1 inp) (inp.aad + inp.textsize) (sendReqStateIv inp)
      (sendReqSrc1 inp) (sendReqDst1 inp)

/-- mtk_send_req (eip93-cipher.c lines 309 to 528): the CTR-exempt
blocksize check, the buffer-large-enough checks, then the submission
phase. Bounce allocation is modelled as succeeding; a scatter walk past
the end of a list yields the EINVAL marker result. -/
def mtk_send_req (inp : SendReqInput) : SendReqRes :=
  if ¬ (inp.flags.mode = MtkMode.ctr) ∧
      IS_ALIGNED inp.textsize (blksizeOfAlg inp.flags.alg) = false then
    noSendEffects EINVAL inp.ctxSa
  else if inp.srcEqDst = true ∧
      (sendReqTotlenSrc inp ≠ 0 ∨ sendReqTotlenDst inp ≠ 0) ∧
      max (sg_nents_for_len inp.srcSegs (sendReqTotlenSrc inp))
        (sg_nents_for_len inp.dstSegs (sendReqTotlenDst inp)) ≤ 0 then
    noSendEffects EINVAL inp.ctxSa
  else if inp.srcEqDst = false ∧ sendReqTotlenSrc inp ≠ 0 ∧
      sg_nents_for_len inp.srcSegs (sendReqTotlenSrc inp) ≤ 0 then
    noSendEffects EINVAL inp.ctxSa
  else if inp.srcEqDst = false ∧ sendReqTotlenDst inp ≠ 0 ∧
      sg_nents_for_len inp.dstSegs (sendReqTotlenDst inp) ≤ 0 then
    noSendEffects EINVAL inp.ctxSa
  else
    mtk_send_req_submit inp

/-- mtk_skcipher_crypt (eip93-cipher.c lines 781 to 856). Arguments beyond
the request length: whether a fallback transform exists and the
NUM_AES_BYPASS threshold with the fallback outcome, the outstanding
descriptor count of the ring against the MTK_RING_BUSY threshold, and the
outcome of mtk_send_req. Returns the entry return value and the number of
descriptors announced to the hardware through the CD_COUNT register. -/
def mtk_skcipher_crypt (cryptlen : ℕ) (hasFallback : Bool) (numAesBypass : ℕ)
    (fallbackRet : Int) (requests ringBusyThreshold : ℕ)
    (sendRet : Int) (sendCommands : ℕ) : Int × ℕ :=
  if cryptlen = 0 then (0, 0)
  else if cryptlen < numAesBypass ∧ hasFallback = true then (fallbackRet, 0)
  else if ringBusyThreshold < requests then (EAGAIN, 0)
  else if sendRet ≠ 0 then (sendRet, 0)
  else if sendCommands = 0 then (0, 0)
  else if ringBusyThreshold < requests + sendCommands then (EBUSY, sendCommands)
  else (EINPROGRESS, sendCommands)

/-- mtk_aead_crypt (eip93-cipher.c lines 1036 to 1099): the text size drops
the tag for decryption, a zero text size returns 0 immediately, then the
same busy check and submission sequence as the skcipher entry, without a
fallback path. -/
def mtk_aead_crypt (cryptlen authsize : ℕ) (decrypt : Bool)
    (requests ringBusyThreshold : ℕ) (sendRet : Int) (sendCommands : ℕ) :
    Int × ℕ :=
  let textsize := if decrypt then cryptlen - authsize else cryptlen
  if textsize = 0 then (0, 0)
  else if ringBusyThreshold < requests then (EAGAIN, 0)
  else if sendRet ≠ 0 then (sendRet, 0)
  else if sendCommands = 0 then (0, 0)
  else if ringBusyThreshold < requests + sendCommands then (EBUSY, sendCommands)
  else (EINPROGRESS, sendCommands)

/-- Word-wise ntohl of the authentication tag inside the bounce buffer
(eip93-cipher.c lines 628 to 634): for each of the authsize / 4 words at
byte offset len the four bytes are reversed, ntohl being a byte swap on
the little-endian host. Bytes outside that region are unchanged. -/
def tagByteSwap (buf : List ℕ) (len authsize : ℕ) : List ℕ :=
  List.ofFn fun i : Fin buf.length =>
    if len ≤ i.1 ∧ i.1 < len + 4 * (authsize / 4) then
      buf.getD (len + 4 * ((i.1 - len) / 4) + (3 - (i.1 - len) % 4)) 0
    else buf.get i

/-- Final copy-back of a bounce destination buffer in mtk_req_result
(eip93-cipher.c lines 624 to 640): when the tag length is non-zero and the
hash is not MD5 the tag words at offset assoclen + textsize are byte
swapped in place, then len plus (for encryption) authsize bytes are copied
into the caller destination list, modelled as the returned byte list. -/
def mtk_req_result_copyback (isMD5 encryptF : Bool) (aad textsize authsize : ℕ)
    (bounce : List ℕ) : List ℕ :=
  let len := aad + textsize
  let buf2 := if authsize ≠ 0 ∧ isMD5 = false then tagByteSwap bounce len authsize
    else bounce
  let auth := if encryptF then authsize else 0
  buf2.take (len + auth)

/-- The all-zero SA record a freshly kzalloc-ed transform context holds. -/
def saRecordZero : SaRecord :=
  ⟨0, 0, 0, 0, 0, 0, 0, 0, 0, 0, 0, 0, 0, 0, 0, 0, 0, 0, 0, 0, 0, [], 0, 0, 0,
    0, 0, [], []⟩

/- Theorems. -/

theorem IS_ALIGNED_pow_two (x k : ℕ) : IS_ALIGNED x (2 ^ k) = true ↔ 2 ^ k ∣ x := by
  unfold IS_ALIGNED
  rw [Nat.and_pow_two_sub_one_eq_mod, beq_iff_eq]
  exact (Nat.dvd_iff_mod_eq_zero).symm

theorem pos_sum_zero_nil {l : List ℕ} (hpos : ∀ x ∈ l, 0 < x) (h : l.sum = 0) :
    l = [] := by
  cases l with
  | nil => rfl
  | cons x xs =>
    exfalso
    have hx := hpos x (by simp)
    simp only [List.sum_cons] at h
    omega

theorem specMerge_sum : ∀ (srcs dsts : List ℕ), srcs.sum = dsts.sum →
    (specMerge srcs dsts).sum = srcs.sum := by
  intro srcs dsts
  induction srcs, dsts using specMerge.induct with
  | case1 ss d ds ih =>
    intro hsum
    rw [specMerge]
    simp only [List.sum_cons] at hsum
    have ih2 := ih (by omega)
    simp [ih2]
  | case2 s ss d ds hne hlt ih =>
    intro hsum
    rw [specMerge]
    simp only [List.sum_cons] at hsum
    have ih2 := ih (by simp only [List.sum_cons]; omega)
    simp only [List.sum_cons] at ih2
    simp [if_neg hne, if_pos hlt, ih2]
  | case3 s ss d ds hne hnlt ih =>
    intro hsum
    rw [specMerge]
    simp only [List.sum_cons] at hsum
    have ih2 := ih (by simp only [List.sum_cons]; omega)
    simp only [List.sum_cons] at ih2
    simp only [if_neg hne, if_neg hnlt, List.sum_cons, ih2]
    omega
  | case4 a b h =>
    intro hsum
    cases a with
    | nil =>
      rw [specMerge.eq_def]
    | cons x xs =>
      cases b with
      | nil =>
        rw [specMerge.eq_def]
        simp only [List.sum_nil] at hsum
        simp [hsum]
      | cons y ys => exact (h x xs y ys rfl rfl).elim

theorem specMerge_length : ∀ (srcs dsts : List ℕ),
    (specMerge srcs dsts).length ≤ srcs.length + dsts.length - 1 := by
  intro srcs dsts
  induction srcs, dsts using specMerge.induct with
  | case1 ss d ds ih =>
    rw [specMerge]
    simp only [List.length_cons] at ih
    simp only [eq_self_iff_true, if_true, List.length_cons]
    omega
  | case2 s ss d ds hne hlt ih =>
    rw [specMerge]
    simp only [if_neg hne, if_pos hlt, List.length_cons] at ih ⊢
    omega
  | case3 s ss d ds hne hnlt ih =>
    rw [specMerge]
    simp only [if_neg hne, if_neg hnlt, List.length_cons] at ih ⊢
    omega
  | case4 a b h =>
    cases a with
    | nil =>
      rw [specMerge.eq_def]
      simp
    | cons x xs =>
      cases b with
      | nil =>
        rw [specMerge.eq_def]
        simp
      | cons y ys => exact (h x xs y ys rfl rfl).elim


theorem scatterLoop_emit (rin rout n : ℕ) (srcs dsts : List ℕ) :
    scatterLoop false false rin rout srcs dsts n =
      (if n - min rin rout = 0 then some [min rin rout]
       else if rin = rout then
         (scatterLoop true true rin rout srcs dsts (n - min rin rout)).map (min rin rout :: ·)
       else if rin < rout then
         (scatterLoop true false rin (rout - min rin rout) srcs dsts (n - min rin rout)).map (min rin rout :: ·)
       else
         (scatterLoop false true (rin - min rin rout) rout srcs dsts (n - min rin rout)).map (min rin rout :: ·)) := by
  rw [scatterLoop.eq_def]
  simp only [Bool.false_eq_true, if_false]

theorem scatterLoop_advance_src (b : Bool) (rin rout s n : ℕ) (ss dsts : List ℕ)
    (h : ¬ min s n = 0) :
    scatterLoop true b rin rout (s :: ss) dsts n =
      scatterLoop false b (min s n) rout ss dsts n := by
  rw [scatterLoop.eq_def]
  simp only [eq_self_iff_true, if_true, if_neg h]

theorem scatterLoop_advance_dst (rin rout d n : ℕ) (srcs ds : List ℕ)
    (h : ¬ min d n = 0) :
    scatterLoop false true rin rout srcs (d :: ds) n =
      scatterLoop false false rin (min d n) srcs ds n := by
  rw [scatterLoop.eq_def]
  simp only [Bool.false_eq_true, if_false, eq_self_iff_true, if_true, if_neg h]

theorem scatterLoop_eq : ∀ (n rin rout : ℕ) (ss ds : List ℕ),
    0 < rin → 0 < rout →
    (∀ x ∈ ss, 0 < x) → (∀ x ∈ ds, 0 < x) →
    n = rin + ss.sum → n = rout + ds.sum →
    scatterLoop false false rin rout ss ds n =
      some (specMerge (rin :: ss) (rout :: ds)) := by
  intro n
  induction n using Nat.strong_induction_on with
  | _ n ih =>
    intro rin rout ss ds hrin hrout hss hds hsum1 hsum2
    rw [scatterLoop_emit]
    rcases lt_trichotomy rin rout with hlt | heq | hgt
    · -- rin < rout : len = rin, source segment exhausted
      have hlen : min rin rout = rin := by omega
      rw [hlen]
      have hne : ¬ (n - rin = 0) := by omega
      rw [if_neg hne, if_neg (by omega : ¬ rin = rout), if_pos hlt]
      have hssne : ss.sum ≠ 0 := by omega
      obtain ⟨s, ss2, rfl⟩ : ∃ s ss2, ss = s :: ss2 := by
        cases ss with
        | nil => simp at hssne
        | cons a l => exact ⟨a, l, rfl⟩
      have hs : 0 < s := hss s (by simp)
      have hsums : (s :: ss2).sum = s + ss2.sum := by simp
      have hminsn : min s (n - rin) = s := by omega
      rw [scatterLoop_advance_src false rin (rout - rin) s (n - rin) ss2 ds (by omega)]
      rw [hminsn]
      rw [ih (n - rin) (by omega) s (rout - rin) ss2 ds hs (by omega)
        (fun x hx => hss x (by simp [hx])) hds (by omega) (by omega)]
      conv_rhs => rw [specMerge]
      rw [if_neg (by omega : ¬ rin = rout), if_pos hlt]
      rfl
    · -- rin = rout : both segments exhausted together
      subst heq
      have hlen : min rin rin = rin := by omega
      rw [hlen]
      by_cases hz : n - rin = 0
      · -- outstanding bytes end exactly here
        rw [if_pos hz]
        have hssnil : ss = [] := pos_sum_zero_nil hss (by omega)
        have hdsnil : ds = [] := pos_sum_zero_nil hds (by omega)
        subst hssnil
        subst hdsnil
        conv_rhs => rw [specMerge]
        simp only [eq_self_iff_true, if_true]
        rw [specMerge.eq_def]
      · rw [if_neg hz, if_pos rfl]
        have hssne : ss.sum ≠ 0 := by omega
        have hdsne : ds.sum ≠ 0 := by omega
        obtain ⟨s, ss2, rfl⟩ : ∃ s ss2, ss = s :: ss2 := by
          cases ss with
          | nil => simp at hssne
          | cons a l => exact ⟨a, l, rfl⟩
        obtain ⟨d, ds2, rfl⟩ : ∃ d ds2, ds = d :: ds2 := by
          cases ds with
          | nil => simp at hdsne
          | cons a l => exact ⟨a, l, rfl⟩
        have hs : 0 < s := hss s (by simp)
        have hd : 0 < d := hds d (by simp)
        have hsums : (s :: ss2).sum = s + ss2.sum := by simp
        have hsumd : (d :: ds2).sum = d + ds2.sum := by simp
        have hminsn : min s (n - rin) = s := by omega
        have hmindn : min d (n - rin) = d := by omega
        rw [scatterLoop_advance_src true rin rin s (n - rin) ss2 (d :: ds2) (by omega)]
        rw [hminsn]
        rw [scatterLoop_advance_dst s rin d (n - rin) ss2 ds2 (by omega)]
        rw [hmindn]
        rw [ih (n - rin) (by omega) s d ss2 ds2 hs hd
          (fun x hx => hss x (by simp [hx]))
          (fun x hx => hds x (by simp [hx]))
          (by omega) (by omega)]
        conv_rhs => rw [specMerge]
        simp only [eq_self_iff_true, if_true]
        rfl
    · -- rout < rin : destination segment exhausted
      have hlen : min rin rout = rout := by omega
      rw [hlen]
      have hne : ¬ (n - rout = 0) := by omega
      rw [if_neg hne, if_neg (by omega : ¬ rin = rout), if_neg (by omega : ¬ rin < rout)]
      have hdsne : ds.sum ≠ 0 := by omega
      obtain ⟨d, ds2, rfl⟩ : ∃ d ds2, ds = d :: ds2 := by
        cases ds with
        | nil => simp at hdsne
        | cons a l => exact ⟨a, l, rfl⟩
      have hd : 0 < d := hds d (by simp)
      have hsumd : (d :: ds2).sum = d + ds2.sum := by simp
      have hmindn : min d (n - rout) = d := by omega
      rw [scatterLoop_advance_dst (rin - rout) rout d (n - rout) ss ds2 (by omega)]
      rw [hmindn]
      rw [ih (n - rout) (by omega) (rin - rout) d ss ds2 (by omega) hd hss
        (fun x hx => hds x (by simp [hx]))
        (by omega) (by omega)]
      conv_rhs => rw [specMerge]
      rw [if_neg (by omega : ¬ rin = rout), if_neg (by omega : ¬ rin < rout)]
      rfl

/-- C2: for source and destination scatterlists with m and n positive
segments covering the same total datalen > 0, mtk_scatter_combine succeeds
and equals the greedy two-pointer merge of the segment length lists, whose
per-pair lengths are each the minimum of the two current segment
remainders by construction; the pair count is at most m + n - 1 and the
lengths sum to exactly datalen. -/
theorem mtk_scatter_combine_two_pointer_merge (srcs dsts : List ℕ) (datalen : ℕ)
    (h0 : 0 < datalen)
    (hs : ∀ x ∈ srcs, 0 < x) (hd : ∀ x ∈ dsts, 0 < x)
    (hsum : srcs.sum = datalen) (hdsum : dsts.sum = datalen) :
    mtk_scatter_combine srcs dsts datalen = some (specMerge srcs dsts) ∧
    (specMerge srcs dsts).sum = datalen ∧
    (specMerge srcs dsts).length ≤ srcs.length + dsts.length - 1 := by
  obtain ⟨s, ss, rfl⟩ : ∃ s ss, srcs = s :: ss := by
    cases srcs with
    | nil => simp at hsum; omega
    | cons a l => exact ⟨a, l, rfl⟩
  obtain ⟨d, ds, rfl⟩ : ∃ d ds, dsts = d :: ds := by
    cases dsts with
    | nil => simp at hdsum; omega
    | cons a l => exact ⟨a, l, rfl⟩
  simp only [List.sum_cons] at hsum hdsum
  have hsp : 0 < s := hs s (by simp)
  have hdp : 0 < d := hd d (by simp)
  refine ⟨?_, ?_, specMerge_length _ _⟩
  · show scatterLoop false false (min s datalen) (min d datalen) ss ds datalen = _
    rw [(by omega : min s datalen = s), (by omega : min d datalen = d)]
    exact scatterLoop_eq datalen s d ss ds hsp hdp
      (fun x hx => hs x (by simp [hx])) (fun x hx => hd x (by simp [hx]))
      (by omega) (by omega)
  · rw [specMerge_sum]
    · simp only [List.sum_cons]
      omega
    · simp only [List.sum_cons]
      omega

/-- Witness for C2 at a concrete pair of scatterlists. -/
theorem mtk_scatter_combine_two_pointer_merge_witness :
    mtk_scatter_combine [16, 32] [48] 48 = some (specMerge [16, 32] [48]) ∧
    (specMerge [16, 32] [48]).sum = 48 ∧
    (specMerge [16, 32] [48]).length ≤ [16, 32].length + [48].length - 1 :=
  mtk_scatter_combine_two_pointer_merge [16, 32] [48] 48 (by decide)
    (by decide) (by decide) (by decide) (by decide)

theorem IS_ALIGNED_32 (x : ℕ) : IS_ALIGNED x 32 = true ↔ 32 ∣ x := by
  have h := IS_ALIGNED_pow_two x 5
  norm_num at h
  exact h

/-- C3: mtk_is_sg_aligned returns false whenever the first segment offset
is not 32-byte aligned, regardless of the length; and a true result
requires that every segment before the cut point has a 32-byte aligned
offset and a blocksize aligned length and that the consumed length in the
cut segment is blocksize aligned (the driver only uses power-of-two block
sizes). -/
theorem mtk_is_sg_aligned_contract (sg : List (ℕ × ℕ)) (len blksz k : ℕ)
    (hb : blksz = 2 ^ k) :
    (∀ off slen rest, sg = (off, slen) :: rest → ¬ (32 ∣ off) →
      mtk_is_sg_aligned sg len blksz = false) ∧
    (mtk_is_sg_aligned sg len blksz = true → AlignedNecessary sg len blksz) := by
  subst hb
  constructor
  · intro off slen rest hsg hoff
    subst hsg
    have hfalse : IS_ALIGNED off 32 = false := by
      rw [Bool.eq_false_iff]
      intro h
      exact hoff ((IS_ALIGNED_32 off).mp h)
    simp [mtk_is_sg_aligned, hfalse]
  · intro htrue
    induction sg generalizing len with
    | nil => simp [mtk_is_sg_aligned] at htrue
    | cons seg rest ih =>
      obtain ⟨off, slen⟩ := seg
      rw [mtk_is_sg_aligned] at htrue
      by_cases hoff : IS_ALIGNED off 32 = true
      · simp only [hoff, Bool.not_true, Bool.false_eq_true, if_false] at htrue
        by_cases hle : len ≤ slen
        · rw [if_pos hle] at htrue
          refine ⟨[], (off, slen), rest, rfl, by simp,
            (IS_ALIGNED_32 off).mp hoff, by simp, by simpa using hle, ?_⟩
          simpa using (IS_ALIGNED_pow_two len k).mp htrue
        · rw [if_neg hle] at htrue
          by_cases hsl : IS_ALIGNED slen (2 ^ k) = true
          · simp only [hsl, Bool.not_true, Bool.false_eq_true, if_false] at htrue
            obtain ⟨pre, cut, rest2, heq, hpre, hcut, hsum, hlen2, hdvd⟩ :=
              ih (len - slen) htrue
            refine ⟨(off, slen) :: pre, cut, rest2, by rw [heq]; rfl, ?_, hcut, ?_, ?_, ?_⟩
            · intro s hs
              rcases List.mem_cons.mp hs with hs | hs
              · subst hs
                exact ⟨(IS_ALIGNED_32 off).mp hoff, (IS_ALIGNED_pow_two slen k).mp hsl⟩
              · exact hpre s hs
            · simp only [List.map_cons, List.sum_cons]
              omega
            · simp only [List.map_cons, List.sum_cons]
              omega
            · simp only [List.map_cons, List.sum_cons]
              have heq2 : len - (slen + (pre.map Prod.snd).sum) =
                  len - slen - (pre.map Prod.snd).sum := by omega
              rw [heq2]
              exact hdvd
          · rw [Bool.not_eq_true] at hsl
            simp [hsl] at htrue
      · rw [Bool.not_eq_true] at hoff
        simp [hoff] at htrue

/-- Witness for C3: a misaligned first segment is rejected for one list,
and a true result yields the decomposition for another. -/
theorem mtk_is_sg_aligned_contract_witness :
    mtk_is_sg_aligned [(16, 8)] 8 8 = false ∧
    AlignedNecessary [(0, 32), (32, 16)] 48 16 :=
  ⟨(mtk_is_sg_aligned_contract [(16, 8)] 8 8 3 (by norm_num)).1 16 8 [] rfl
      (by decide),
   (mtk_is_sg_aligned_contract [(0, 32), (32, 16)] 48 16 4 (by norm_num)).2
      (by decide)⟩

theorem pollFrom_le (ready : ℕ → Bool) : ∀ (budget t : ℕ),
    pollFrom ready t budget ≤ t + budget := by
  intro budget
  induction budget with
  | zero => intro t; simp [pollFrom]
  | succ b ih =>
    intro t
    rw [pollFrom]
    by_cases h : ready t = true
    · simp [h]
    · rw [Bool.not_eq_true] at h
      simp only [h, Bool.false_eq_true, if_false]
      have := ih (t + 1)
      omega

theorem pollFrom_never (budget : ℕ) : ∀ t : ℕ,
    pollFrom (fun _ => false) t budget = t + budget := by
  induction budget with
  | zero => intro t; simp [pollFrom]
  | succ b ih =>
    intro t
    rw [pollFrom]
    simp only [Bool.false_eq_true, if_false]
    rw [ih (t + 1)]
    omega

/-- C5 counterexample: a result descriptor whose ready bits never read as
set exhausts the 1000-try bound, yet with a clean errStatus the reaper
reports success 0 instead of an error condition. -/
theorem mtk_reap_descriptor_counterexample :
    mtk_poll (fun _ => false) = 1000 ∧
    mtk_reap_descriptor (fun _ => false) 0 = 0 ∧ (0 : Int) ≠ EINVAL := by
  refine ⟨?_, ?_, by decide⟩
  · rw [mtk_poll, pollFrom_never]
  · simp [mtk_reap_descriptor]

/-- C5 amended: the ready-bit wait is bounded by 1000 retries, but after
the bound the reaper proceeds regardless of readiness, deriving the
outcome solely from the descriptor errStatus field: error exactly when
errStatus is non-zero. -/
theorem mtk_reap_descriptor_bounded_poll (ready : ℕ → Bool) (errStatus : ℕ) :
    mtk_poll ready ≤ 1000 ∧
    mtk_reap_descriptor ready errStatus =
      mtk_reap_descriptor (fun _ => true) errStatus ∧
    (mtk_reap_descriptor ready errStatus = 0 ↔ errStatus = 0) := by
  refine ⟨?_, ?_, ?_⟩
  · have := pollFrom_le ready 1000 0
    simpa [mtk_poll] using this
  · simp [mtk_reap_descriptor]
  · simp only [mtk_reap_descriptor]
    by_cases h : errStatus = 0
    · simp [h]
    · simp [h, EINVAL]

/-- C4 counterexample: with the ring past the busy threshold (5 > 4), a
small request diverted to the software fallback returns the fallback
result 0, not a busy-class code, refuting the claim over all crypt entry
calls. -/
theorem mtk_skcipher_crypt_busy_counterexample :
    mtk_skcipher_crypt 8 true 16 0 5 4 0 0 = (0, 0) ∧ 4 < 5 ∧
    (0 : Int) ≠ EAGAIN ∧ (0 : Int) ≠ EBUSY := by
  refine ⟨by decide, by decide, by decide, by decide⟩

/-- C4 amended: whenever the outstanding descriptor count already exceeds
the busy threshold at entry, a skcipher crypt call that is not diverted
(non-zero length and not taken by the fallback bypass) and any AEAD crypt
call with non-zero text size return -EAGAIN and announce zero descriptors
to the hardware. -/
theorem crypt_backpressure_refusal (cryptlen : ℕ) (hasFallback : Bool)
    (numAesBypass : ℕ) (fallbackRet : Int) (requests ringBusyThreshold : ℕ)
    (sendRet : Int) (sendCommands : ℕ) (authsize : ℕ) (decrypt : Bool)
    (hbusy : ringBusyThreshold < requests) :
    (cryptlen ≠ 0 → ¬ (cryptlen < numAesBypass ∧ hasFallback = true) →
      mtk_skcipher_crypt cryptlen hasFallback numAesBypass fallbackRet
        requests ringBusyThreshold sendRet sendCommands = (EAGAIN, 0)) ∧
    ((if decrypt then cryptlen - authsize else cryptlen) ≠ 0 →
      mtk_aead_crypt cryptlen authsize decrypt requests ringBusyThreshold
        sendRet sendCommands = (EAGAIN, 0)) := by
  constructor
  · intro hlen hfb
    rw [mtk_skcipher_crypt]
    rw [if_neg hlen, if_neg hfb, if_pos hbusy]
  · intro htext
    rw [mtk_aead_crypt]
    simp only [if_neg htext, if_pos hbusy]

/-- Witness for the amended C4 at concrete ring occupancy 5 over
threshold 4. -/
theorem crypt_backpressure_refusal_witness :
    mtk_skcipher_crypt 64 false 16 0 5 4 0 0 = (EAGAIN, 0) ∧
    mtk_aead_crypt 64 16 false 5 4 0 0 = (EAGAIN, 0) :=
  ⟨(crypt_backpressure_refusal 64 false 16 0 5 4 0 0 16 false (by decide)).1
      (by decide) (by decide),
   (crypt_backpressure_refusal 64 false 16 0 5 4 0 0 16 false (by decide)).2
      (by decide)⟩

/-- C6: a setkey call whose key is NULL, empty, or whose effective key
length (after removing the RFC3686 nonce in 32-bit unsigned arithmetic) is
outside the selected algorithm's accepted set returns a non-zero error
without reaching mtk_ctx_saRecord: the transform's SA record is returned
unchanged, and no hardware is involved at any point of setkey. -/
theorem mtk_skcipher_setkey_rejects_bad_keylen (sa : SaRecord)
    (flags : MtkFlags) (keyNull : Bool) (key : List ℕ) (len : ℕ)
    (desKeyOk : Bool) (fallbackPresent : Bool) (fallbackRet : Int)
    (hbad : keyNull = true ∨ len = 0 ∨
      (match flags.alg with
       | .aes =>
         (if flags.rfc3686 then (len + U32_MOD - CTR_RFC3686_NONCE_SIZE) % U32_MOD else len) ≠ 16 ∧
         (if flags.rfc3686 then (len + U32_MOD - CTR_RFC3686_NONCE_SIZE) % U32_MOD else len) ≠ 24 ∧
         (if flags.rfc3686 then (len + U32_MOD - CTR_RFC3686_NONCE_SIZE) % U32_MOD else len) ≠ 32
       | .des =>
         (if flags.rfc3686 then (len + U32_MOD - CTR_RFC3686_NONCE_SIZE) % U32_MOD else len) ≠ DES_KEY_SIZE
       | .des3 =>
         (if flags.rfc3686 then (len + U32_MOD - CTR_RFC3686_NONCE_SIZE) % U32_MOD else len) ≠ DES3_EDE_KEY_SIZE)) :
    (mtk_skcipher_setkey sa flags keyNull key len desKeyOk fallbackPresent
      fallbackRet).1 ≠ 0 ∧
    (mtk_skcipher_setkey sa flags keyNull key len desKeyOk fallbackPresent
      fallbackRet).2 = sa := by
  rcases hbad with hnull | hlen | hkl
  · rw [mtk_skcipher_setkey, if_pos (Or.inl hnull)]
    exact ⟨show EINVAL ≠ 0 by decide, rfl⟩
  · rw [mtk_skcipher_setkey, if_pos (Or.inr hlen)]
    exact ⟨show EINVAL ≠ 0 by decide, rfl⟩
  · by_cases hfirst : keyNull = true ∨ len = 0
    · rw [mtk_skcipher_setkey, if_pos hfirst]
      exact ⟨show EINVAL ≠ 0 by decide, rfl⟩
    · cases halg : flags.alg with
      | aes =>
        simp only [halg] at hkl
        obtain ⟨h16, h24, h32⟩ := hkl
        simp only [mtk_skcipher_setkey, if_neg hfirst, halg]
        split_ifs <;> simp_all [EINVAL]
      | des =>
        simp only [halg] at hkl
        simp only [mtk_skcipher_setkey, if_neg hfirst, halg]
        split_ifs <;> simp_all [EINVAL, DES_KEY_SIZE]
      | des3 =>
        simp only [halg] at hkl
        simp only [mtk_skcipher_setkey, if_neg hfirst, halg]
        split_ifs <;> simp_all [EINVAL, DES3_EDE_KEY_SIZE]

/-- Witness for C6: a 3DES setkey with an 8-byte key (not
DES3_EDE_KEY_SIZE) fails and leaves the zero SA record unchanged. -/
theorem mtk_skcipher_setkey_rejects_bad_keylen_witness :
    (mtk_skcipher_setkey saRecordZero
      ⟨MtkAlg.des3, MtkMode.cbc, MtkHash.hashNull, false, false, true⟩ false
      (List.replicate 8 0) 8 true false 0).1 ≠ 0 ∧
    (mtk_skcipher_setkey saRecordZero
      ⟨MtkAlg.des3, MtkMode.cbc, MtkHash.hashNull, false, false, true⟩ false
      (List.replicate 8 0) 8 true false 0).2 = saRecordZero :=
  mtk_skcipher_setkey_rejects_bad_keylen saRecordZero
    ⟨MtkAlg.des3, MtkMode.cbc, MtkHash.hashNull, false, false, true⟩ false
    (List.replicate 8 0) 8 true false 0 (by right; right; decide)

theorem tagByteSwap_length (buf : List ℕ) (len authsize : ℕ) :
    (tagByteSwap buf len authsize).length = buf.length := by
  simp [tagByteSwap]

theorem tagByteSwap_getD (buf : List ℕ) (len authsize j : ℕ)
    (h : j < buf.length) :
    (tagByteSwap buf len authsize).getD j 0 =
      if len ≤ j ∧ j < len + 4 * (authsize / 4) then
        buf.getD (len + 4 * ((j - len) / 4) + (3 - (j - len) % 4)) 0
      else buf.getD j 0 := by
  have hlt : j < (tagByteSwap buf len authsize).length := by
    rw [tagByteSwap_length]; exact h
  rw [List.getD_eq_getElem?_getD, List.getElem?_eq_getElem hlt]
  unfold tagByteSwap at hlt ⊢
  rw [List.getElem_ofFn]
  by_cases hc : len ≤ j ∧ j < len + 4 * (authsize / 4)
  · simp only [hc, if_pos, and_self, Option.getD_some]
  · rw [if_neg hc, if_neg hc]
    simp only [Option.getD_some, List.get_eq_getElem]
    rw [List.getD_eq_getElem?_getD, List.getElem?_eq_getElem h]
    rfl

/-- C7: on final retirement with a bounce destination buffer and non-zero
tag length, the copy-back output has the payload bytes unchanged, and each
tag byte at offset assoclen + textsize reads byte-swapped within its
32-bit word exactly when the hash is not MD5 (word-wise ntohl applied
before the copy back), and verbatim when it is MD5. -/
theorem mtk_req_result_tag_endianness (isMD5 : Bool) (aad textsize authsize : ℕ)
    (bounce : List ℕ) (hlen : bounce.length = aad + textsize + authsize)
    (h4 : 4 ∣ authsize) (hpos : authsize ≠ 0) :
    (mtk_req_result_copyback isMD5 true aad textsize authsize bounce).length =
      aad + textsize + authsize ∧
    (∀ i, i < aad + textsize →
      (mtk_req_result_copyback isMD5 true aad textsize authsize bounce).getD i 0 =
        bounce.getD i 0) ∧
    (∀ i, i < authsize →
      (mtk_req_result_copyback isMD5 true aad textsize authsize bounce).getD
          (aad + textsize + i) 0 =
        if isMD5 = true then bounce.getD (aad + textsize + i) 0
        else bounce.getD (aad + textsize + 4 * (i / 4) + (3 - i % 4)) 0) := by
  have hauth4 : 4 * (authsize / 4) = authsize := Nat.mul_div_cancel' h4
  cases isMD5 with
  | true =>
    have hbuf : mtk_req_result_copyback true true aad textsize authsize bounce = bounce := by
      simp only [mtk_req_result_copyback, Bool.true_eq_false, and_false, if_false,
        eq_self_iff_true, if_true]
      exact List.take_of_length_le (by omega)
    rw [hbuf]
    exact ⟨by omega, fun i _ => rfl, fun i _ => by rw [if_pos rfl]⟩
  | false =>
    have hbuf : mtk_req_result_copyback false true aad textsize authsize bounce =
        tagByteSwap bounce (aad + textsize) authsize := by
      simp only [mtk_req_result_copyback, eq_self_iff_true, and_true, if_true]
      rw [if_pos hpos]
      exact List.take_of_length_le (by rw [tagByteSwap_length]; omega)
    rw [hbuf]
    refine ⟨by rw [tagByteSwap_length]; omega, ?_, ?_⟩
    · intro i hi
      rw [tagByteSwap_getD bounce _ _ i (by omega)]
      rw [if_neg (by omega)]
    · intro i hi
      rw [tagByteSwap_getD bounce _ _ (aad + textsize + i) (by omega)]
      rw [if_pos (by constructor <;> omega)]
      have h1 : aad + textsize + i - (aad + textsize) = i := by omega
      rw [h1]
      simp only [Bool.false_eq_true, if_false]

/-- Witness for C7 on a concrete 8-byte bounce buffer with a 4-byte tag. -/
theorem mtk_req_result_tag_endianness_witness :
    (mtk_req_result_copyback false true 0 4 4
        [10, 11, 12, 13, 20, 21, 22, 23]).length = 0 + 4 + 4 ∧
    (∀ i, i < 0 + 4 →
      (mtk_req_result_copyback false true 0 4 4
          [10, 11, 12, 13, 20, 21, 22, 23]).getD i 0 =
        List.getD [10, 11, 12, 13, 20, 21, 22, 23] i 0) ∧
    (∀ i, i < 4 →
      (mtk_req_result_copyback false true 0 4 4
          [10, 11, 12, 13, 20, 21, 22, 23]).getD (0 + 4 + i) 0 =
        if false = true then
          List.getD [10, 11, 12, 13, 20, 21, 22, 23] (0 + 4 + i) 0
        else
          List.getD [10, 11, 12, 13, 20, 21, 22, 23]
            (0 + 4 + 4 * (i / 4) + (3 - i % 4)) 0) :=
  mtk_req_result_tag_endianness false 0 4 4 [10, 11, 12, 13, 20, 21, 22, 23]
    (by decide) (by decide) (by decide)

theorem getLast?_map_const (descs : List ℕ) (hne : descs ≠ []) :
    (descs.map fun _ => DescFlags.mk true false false).getLast? =
      some ⟨true, false, false⟩ := by
  induction descs with
  | nil => exact absurd rfl hne
  | cons a as ih =>
    cases as with
    | nil => rfl
    | cons b bs =>
      rw [List.map_cons, List.map_cons, List.getLast?_cons_cons]
      exact ih (by simp)

theorem markLast_map_const (descs : List ℕ) (c : Bool) (hne : descs ≠ []) :
    markLast (descs.map fun _ => DescFlags.mk true false false) c =
      (descs.map fun _ => DescFlags.mk true false false).dropLast ++
        [⟨true, true, c⟩] := by
  rw [markLast, getLast?_map_const descs hne]
  simp

theorem drainLoop_all_unfinished : ∀ (bufs : List DescFlags) (nreq : ℕ)
    (sc : Bool) (nd : ℕ), (∀ b ∈ bufs, b.finish = false) →
    (drainLoop bufs nreq sc nd).1 = sc := by
  intro bufs
  induction bufs with
  | nil => intro nreq sc nd _; rfl
  | cons b rest ih =>
    intro nreq sc nd hall
    rw [drainLoop]
    by_cases hn : nd < nreq
    · simp only [if_pos hn]
      have hb : b.finish = false := hall b (by simp)
      rw [hb, Bool.or_false]
      by_cases hl : b.last = true
      · simp [hl]
      · rw [Bool.not_eq_true] at hl
        simp only [hl, Bool.false_eq_true, if_false]
        exact ih nreq sc (nd + 1) (fun x hx => hall x (by simp [hx]))
    · simp [if_neg hn]

theorem drainLoop_finish_source : ∀ (bufs : List DescFlags) (nreq : ℕ)
    (sc : Bool) (nd : ℕ), (drainLoop bufs nreq sc nd).1 = true →
    sc = true ∨ ∃ b ∈ bufs, b.finish = true := by
  intro bufs
  induction bufs with
  | nil => intro nreq sc nd h; exact Or.inl h
  | cons b rest ih =>
    intro nreq sc nd h
    rw [drainLoop] at h
    by_cases hn : nd < nreq
    · simp only [if_pos hn] at h
      by_cases hl : b.last = true
      · simp only [hl, if_pos] at h
        rcases Bool.or_eq_true_iff.mp h with h | h
        · exact Or.inl h
        · exact Or.inr ⟨b, by simp, h⟩
      · rw [Bool.not_eq_true] at hl
        simp only [hl, Bool.false_eq_true, if_false] at h
        rcases ih nreq (sc || b.finish) (nd + 1) h with h2 | ⟨x, hx, hfx⟩
        · rcases Bool.or_eq_true_iff.mp h2 with h2 | h2
          · exact Or.inl h2
          · exact Or.inr ⟨b, by simp, h2⟩
        · exact Or.inr ⟨x, by simp [hx], hfx⟩
    · rw [if_neg hn] at h
      exact Or.inl h

/-- C8: within one submission only the last descriptor slot carries
MTK_DESC_LAST and it carries MTK_DESC_FINISH exactly when the submission
is final; the drain loop reports should_complete false over slots with no
finish flag, reports true only if some drained slot carried the finish
flag, and therefore stays false over the first (complete = false)
submission of a CTR-overflow split, deferring completion. -/
theorem desc_flags_completion_protocol :
    (∀ srcs dsts datalen complete descs flags,
      mtk_scatter_combine_flags srcs dsts datalen complete =
        some (descs, flags) →
      flags.length = descs.length ∧
      (∀ i (h : i + 1 < flags.length),
        flags.get ⟨i, Nat.lt_of_succ_lt h⟩ = ⟨true, false, false⟩) ∧
      (∀ h : flags ≠ [], flags.getLast h = ⟨true, true, complete⟩)) ∧
    (∀ bufs nreq, (∀ b ∈ bufs, b.finish = false) →
      (drainLoop bufs nreq false 0).1 = false) ∧
    (∀ bufs nreq, (drainLoop bufs nreq false 0).1 = true →
      ∃ b ∈ bufs, b.finish = true) ∧
    (∀ srcs dsts datalen descs flags,
      mtk_scatter_combine_flags srcs dsts datalen false =
        some (descs, flags) →
      ∀ nreq, (drainLoop flags nreq false 0).1 = false) := by
  have hshape : ∀ (srcs dsts : List ℕ) (datalen : ℕ) (complete : Bool)
      (descs : List ℕ) (flags : List DescFlags),
      mtk_scatter_combine_flags srcs dsts datalen complete =
        some (descs, flags) →
      flags = markLast (descs.map fun _ => DescFlags.mk true false false)
        complete := by
    intro srcs dsts datalen complete descs flags hsome
    rw [mtk_scatter_combine_flags] at hsome
    cases hc : mtk_scatter_combine srcs dsts datalen with
    | none => rw [hc] at hsome; exact absurd hsome (by simp)
    | some ds =>
      rw [hc] at hsome
      simp only [Option.some.injEq, Prod.mk.injEq] at hsome
      obtain ⟨h1, h2⟩ := hsome
      rw [← h2, h1]
  have hfinish : ∀ (descs : List ℕ) (b : DescFlags),
      b ∈ markLast (descs.map fun _ => DescFlags.mk true false false) false →
      b.finish = false := by
    intro descs b hb
    cases descs with
    | nil =>
      rw [markLast] at hb
      simp at hb
    | cons a as =>
      rw [markLast_map_const _ _ (by simp)] at hb
      rcases List.mem_append.mp hb with hb | hb
      · have hb2 := List.dropLast_subset _ hb
        rcases List.mem_map.mp hb2 with ⟨x, _, hx⟩
        rw [← hx]
      · rcases List.mem_singleton.mp hb with rfl
        rfl
  refine ⟨?_, ?_, ?_, ?_⟩
  · intro srcs dsts datalen complete descs flags hsome
    have hfl := hshape srcs dsts datalen complete descs flags hsome
    subst hfl
    cases descs with
    | nil =>
      refine ⟨rfl, ?_, ?_⟩
      · intro i h
        rw [markLast] at h
        simp at h
      · intro h
        rw [markLast] at h
        simp at h
    | cons a as =>
      rw [markLast_map_const _ _ (by simp)]
      refine ⟨?_, ?_, ?_⟩
      · simp
      · intro i h
        simp only [List.length_append, List.length_dropLast, List.length_map,
          List.length_cons, List.length_nil] at h
        have hi : i < ((a :: as).map fun _ =>
            DescFlags.mk true false false).dropLast.length := by
          simp only [List.length_dropLast, List.length_map, List.length_cons]
          omega
        rw [List.get_eq_getElem, List.getElem_append_left hi]
        rw [List.getElem_dropLast, List.getElem_map]
      · intro h
        rw [List.getLast_append_singleton]
  · intro bufs nreq hall
    exact drainLoop_all_unfinished bufs nreq false 0 hall
  · intro bufs nreq h
    rcases drainLoop_finish_source bufs nreq false 0 h with h | h
    · exact absurd h (by simp)
    · exact h
  · intro srcs dsts datalen descs flags hsome nreq
    have hfl := hshape srcs dsts datalen false descs flags hsome
    subst hfl
    exact drainLoop_all_unfinished _ nreq false 0
      (fun b hb => hfinish descs b hb)

/-- Witness for C8 on a concrete two-segment submission and its drain. -/
theorem desc_flags_completion_protocol_witness :
    (([⟨true, false, false⟩, ⟨true, true, true⟩] : List DescFlags).length =
        ([16, 32] : List ℕ).length ∧
      (∀ i (h : i + 1 <
          ([⟨true, false, false⟩, ⟨true, true, true⟩] : List DescFlags).length),
        ([⟨true, false, false⟩, ⟨true, true, true⟩] : List DescFlags).get
          ⟨i, Nat.lt_of_succ_lt h⟩ = ⟨true, false, false⟩) ∧
      (∀ h : ([⟨true, false, false⟩, ⟨true, true, true⟩] : List DescFlags) ≠ [],
        ([⟨true, false, false⟩, ⟨true, true, true⟩] : List DescFlags).getLast h =
          ⟨true, true, true⟩)) ∧
    (drainLoop [⟨true, false, false⟩, ⟨true, true, false⟩] 5 false 0).1 =
      false := by
  constructor
  · refine desc_flags_completion_protocol.1 [16, 32] [48] 48 true [16, 32]
      [⟨true, false, false⟩, ⟨true, true, true⟩] ?_
    rw [mtk_scatter_combine_flags]
    have hc : mtk_scatter_combine [16, 32] [48] 48 = some [16, 32] := by
      simp [mtk_scatter_combine, scatterLoop.eq_def]
    rw [hc]
    rfl
  · refine desc_flags_completion_protocol.2.2.2 [16, 32] [48] 48 [16, 32]
      [⟨true, false, false⟩, ⟨true, true, false⟩] ?_ 5
    rw [mtk_scatter_combine_flags]
    have hc : mtk_scatter_combine [16, 32] [48] 48 = some [16, 32] := by
      simp [mtk_scatter_combine, scatterLoop.eq_def]
    rw [hc]
    rfl


theorem mtk_send_req_single_frame (inp : SendReqInput) (a b : Bool)
    (m d : ℕ) (st : Option (List ℕ)) (s1 d1 : List (ℕ × ℕ)) :
    (mtk_send_req_single inp a b m d st s1 d1).ctxSaAfter = inp.ctxSa ∧
    (mtk_send_req_single inp a b m d st s1 d1).ringSa =
      some (sendReqRingSa inp) := by
  rw [mtk_send_req_single]
  split
  · exact ⟨rfl, rfl⟩
  · exact ⟨rfl, rfl⟩

theorem mtk_send_req_wrapped_frame (inp : SendReqInput) (a b c : Bool)
    (m d o : ℕ) (st : Option (List ℕ)) (iv2 : List ℕ)
    (s1 d1 : List (ℕ × ℕ)) :
    (mtk_send_req_wrapped inp a b c m d o st iv2 s1 d1).ctxSaAfter =
      inp.ctxSa ∧
    (mtk_send_req_wrapped inp a b c m d o st iv2 s1 d1).ringSa =
      some (sendReqRingSa inp) := by
  rw [mtk_send_req_wrapped]
  split
  · exact ⟨rfl, rfl⟩
  · dsimp only
    split
    · exact ⟨rfl, rfl⟩
    · exact ⟨rfl, rfl⟩

theorem mtk_send_req_submit_frame (inp : SendReqInput) :
    (mtk_send_req_submit inp).ctxSaAfter = inp.ctxSa ∧
    (mtk_send_req_submit inp).ringSa = some (sendReqRingSa inp) := by
  rw [mtk_send_req_submit]
  split
  · exact mtk_send_req_wrapped_frame inp _ _ _ _ _ _ _ _ _ _
  · exact mtk_send_req_single_frame inp _ _ _ _ _ _ _

/-- C9: mtk_send_req leaves the transform's own SA record unchanged; the
per-request modifications (direction bit for decryption, AEAD opcode, HMAC
offset and digest length) land only in the ring-slot copy, which agrees
with the transform record on every other field. -/
theorem mtk_send_req_sa_frame (inp : SendReqInput) :
    (mtk_send_req inp).ctxSaAfter = inp.ctxSa ∧
    sendReqRingSa inp =
      { inp.ctxSa with
        direction := if inp.flags.encrypt = false then 1
          else inp.ctxSa.direction
        opCode := if inp.aead then 1 else inp.ctxSa.opCode
        hashCryptOffset := if inp.flags.hmac then inp.aad / 4
          else inp.ctxSa.hashCryptOffset
        digestLength := if inp.flags.hmac then inp.authsize / 4
          else inp.ctxSa.digestLength } ∧
    ((mtk_send_req inp).ringSa = none ∨
      (mtk_send_req inp).ringSa = some (sendReqRingSa inp)) := by
  have hAC : (mtk_send_req inp).ctxSaAfter = inp.ctxSa ∧
      ((mtk_send_req inp).ringSa = none ∨
        (mtk_send_req inp).ringSa = some (sendReqRingSa inp)) := by
    rw [mtk_send_req]
    split
    · exact ⟨rfl, Or.inl rfl⟩
    · split
      · exact ⟨rfl, Or.inl rfl⟩
      · split
        · exact ⟨rfl, Or.inl rfl⟩
        · split
          · exact ⟨rfl, Or.inl rfl⟩
          · exact ⟨(mtk_send_req_submit_frame inp).1,
              Or.inr (mtk_send_req_submit_frame inp).2⟩
  refine ⟨hAC.1, ?_, hAC.2⟩
  rw [sendReqRingSa]
  by_cases he : inp.flags.encrypt = false <;>
    by_cases ha : inp.aead <;>
    by_cases hh : inp.flags.hmac <;>
    simp [he, ha, hh]

theorem IS_ALIGNED_blksize (x : ℕ) (a : MtkAlg) :
    IS_ALIGNED x (blksizeOfAlg a) = true ↔ blksizeOfAlg a ∣ x := by
  cases a with
  | aes =>
    have h := IS_ALIGNED_pow_two x 4
    norm_num at h
    simpa [blksizeOfAlg, AES_BLOCK_SIZE] using h
  | des =>
    have h := IS_ALIGNED_pow_two x 3
    norm_num at h
    simpa [blksizeOfAlg, DES_BLOCK_SIZE] using h
  | des3 =>
    have h := IS_ALIGNED_pow_two x 3
    norm_num at h
    simpa [blksizeOfAlg, DES3_EDE_BLOCK_SIZE] using h

/-- C10: a non-CTR request (ECB or CBC) whose text length is not a
multiple of the cipher block size makes mtk_send_req return -EINVAL at
the head of the function: no bounce buffer, no DMA mapping, no
descriptor, no ring-slot write. -/
theorem mtk_send_req_blocksize_precheck (inp : SendReqInput)
    (hmode : inp.flags.mode = MtkMode.ecb ∨ inp.flags.mode = MtkMode.cbc)
    (hdvd : ¬ (blksizeOfAlg inp.flags.alg ∣ inp.textsize)) :
    mtk_send_req inp = noSendEffects EINVAL inp.ctxSa := by
  have hblk : IS_ALIGNED inp.textsize (blksizeOfAlg inp.flags.alg) = false := by
    rw [Bool.eq_false_iff]
    exact fun h => hdvd ((IS_ALIGNED_blksize _ _).mp h)
  have hctr : ¬ (inp.flags.mode = MtkMode.ctr) := by
    rcases hmode with h | h <;> rw [h] <;> intro hc <;> exact absurd hc (by decide)
  rw [mtk_send_req, if_pos ⟨hctr, hblk⟩]

/-- Witness for C10: an ECB AES request of 15 bytes is rejected with no
effects. -/
theorem mtk_send_req_blocksize_precheck_witness :
    mtk_send_req ⟨⟨MtkAlg.aes, MtkMode.ecb, MtkHash.hashNull, false, false,
        true⟩, false, 0, 15, 0, [], [(0, 15)], [(0, 15)], false,
        saRecordZero⟩ =
      noSendEffects EINVAL saRecordZero :=
  mtk_send_req_blocksize_precheck _ (Or.inl rfl) (by decide)

theorem incBytesRev_length : ∀ l : List ℕ, (incBytesRev l).length = l.length := by
  intro l
  induction l with
  | nil => rfl
  | cons b rest ih =>
    rw [incBytesRev]
    by_cases h : b + 1 < 256
    · simp [h]
    · simp only [h, if_false, List.length_cons, ih]

theorem crypto_inc_append_ff (b : List ℕ) :
    crypto_inc (b ++ [255, 255, 255, 255]) =
      (incBytesRev b.reverse).reverse ++ [0, 0, 0, 0] := by
  rw [crypto_inc, List.reverse_append]
  have h4 : ([255, 255, 255, 255] : List ℕ).reverse = [255, 255, 255, 255] := rfl
  rw [h4]
  have hstep : incBytesRev ([255, 255, 255, 255] ++ b.reverse) =
      [0, 0, 0, 0] ++ incBytesRev b.reverse := by
    simp [incBytesRev]
  rw [hstep, List.reverse_append]
  rfl

/-- C1: a CTR (non-RFC3686) AES request whose IV counter word is
0xFFFFFFFE and whose 48-byte source spans 3 AES blocks is split: the
counter overflow is detected since 0xFFFFFFFE + 3 - 1 wraps past
0xFFFFFFFF, the first sub-request covers exactly 2 blocks (32 bytes,
AES_BLOCK_SIZE * (2^32 - ctr0)) with the original IV in its saState slot,
and the second covers the remaining block with its saState counter word
wrapped to 0x00000000. -/
theorem mtk_send_req_ctr_overflow_split (b : List ℕ) (hb : b.length = 12)
    (sa : SaRecord) :
    ∃ c : List ℕ, c.length = 12 ∧
      mtk_send_req ⟨⟨MtkAlg.aes, MtkMode.ctr, MtkHash.hashNull, false, false,
          true⟩, false, 0, 48, 0, b ++ [255, 255, 255, 254], [(0, 48)],
          [(0, 48)], false, sa⟩ =
        { ret := 0
          srcBounced := false
          dstBounced := false
          dmaMapCalls := 4
          submissions := [⟨32, false, some (b ++ [255, 255, 255, 254]), [32]⟩,
            ⟨16, true, some (c ++ [0, 0, 0, 0]), [16]⟩]
          commands := 2
          results := 2
          ctxSaAfter := sa
          ringSa := some sa } ∧
      32 = AES_BLOCK_SIZE * (2 ^ 32 - 4294967294) ∧
      4294967294 = be32FromBytes 255 255 255 254 := by
  refine ⟨(incBytesRev b.reverse).reverse,
    by rw [List.length_reverse, incBytesRev_length, List.length_reverse, hb],
    ?_, by norm_num [AES_BLOCK_SIZE], by norm_num [be32FromBytes]⟩
  have hctr : sendReqCtr0 ⟨⟨MtkAlg.aes, MtkMode.ctr, MtkHash.hashNull, false,
      false, true⟩, false, 0, 48, 0, b ++ [255, 255, 255, 254], [(0, 48)],
      [(0, 48)], false, sa⟩ = 4294967294 := by
    have hg : ∀ i : ℕ, (b ++ [255, 255, 255, 254]).getD (12 + i) 0 =
        ([255, 255, 255, 254] : List ℕ).getD i 0 := by
      intro i
      rw [List.getD_append_right _ _ _ _ (by omega), hb]
      norm_num
    have h12 : (b ++ [255, 255, 255, 254]).getD 12 0 = 255 := by
      have h := hg 0
      rw [Nat.add_zero] at h
      exact h.trans rfl
    have h13 : (b ++ [255, 255, 255, 254]).getD 13 0 = 255 := by
      have h := hg 1
      rw [show (12 : ℕ) + 1 = 13 from rfl] at h
      exact h.trans rfl
    have h14 : (b ++ [255, 255, 255, 254]).getD 14 0 = 255 := by
      have h := hg 2
      rw [show (12 : ℕ) + 2 = 14 from rfl] at h
      exact h.trans rfl
    have h15 : (b ++ [255, 255, 255, 254]).getD 15 0 = 254 := by
      have h := hg 3
      rw [show (12 : ℕ) + 3 = 15 from rfl] at h
      exact h.trans rfl
    simp only [sendReqCtr0]
    rw [h12, h13, h14, h15]
    norm_num [be32FromBytes]
  have hblocks : sendReqBlocks ⟨⟨MtkAlg.aes, MtkMode.ctr, MtkHash.hashNull,
      false, false, true⟩, false, 0, 48, 0, b ++ [255, 255, 255, 254],
      [(0, 48)], [(0, 48)], false, sa⟩ = 3 := by
    simp [sendReqBlocks, sendReqTotlenSrc, AES_BLOCK_SIZE]
  have hend : sendReqEnd ⟨⟨MtkAlg.aes, MtkMode.ctr, MtkHash.hashNull, false,
      false, true⟩, false, 0, 48, 0, b ++ [255, 255, 255, 254], [(0, 48)],
      [(0, 48)], false, sa⟩ = 0 := by
    rw [sendReqEnd, hctr, hblocks]
    norm_num [U32_MOD]
  have hoff : sendReqWrapOffset ⟨⟨MtkAlg.aes, MtkMode.ctr, MtkHash.hashNull,
      false, false, true⟩, false, 0, 48, 0, b ++ [255, 255, 255, 254],
      [(0, 48)], [(0, 48)], false, sa⟩ = 32 := by
    rw [sendReqWrapOffset, hctr]
    norm_num [U32_MOD, AES_BLOCK_SIZE]
  have hwiv : sendReqWrapIv ⟨⟨MtkAlg.aes, MtkMode.ctr, MtkHash.hashNull,
      false, false, true⟩, false, 0, 48, 0, b ++ [255, 255, 255, 254],
      [(0, 48)], [(0, 48)], false, sa⟩ =
      (incBytesRev b.reverse).reverse ++ [0, 0, 0, 0] := by
    simp only [sendReqWrapIv]
    rw [List.take_left' hb]
    exact crypto_inc_append_ff b
  have hc1 : mtk_scatter_combine [48] [48] 32 = some [32] := by
    simp [mtk_scatter_combine, scatterLoop.eq_def]
  have hc2 : mtk_scatter_combine [16] [16] 16 = some [16] := by
    simp [mtk_scatter_combine, scatterLoop.eq_def]
  have halign : mtk_is_sg_aligned [(0, 48)] 48 16 = true := by decide
  have hnents : sg_nents_for_len [(0, 48)] 48 = 1 := by decide
  have hsrcal : sendReqSrcAlign ⟨⟨MtkAlg.aes, MtkMode.ctr, MtkHash.hashNull,
      false, false, true⟩, false, 0, 48, 0, b ++ [255, 255, 255, 254],
      [(0, 48)], [(0, 48)], false, sa⟩ = true := by
    simp [sendReqSrcAlign, sendReqTotlenSrc, blksizeOfAlg, AES_BLOCK_SIZE,
      halign]
  have hdstal : sendReqDstAlign ⟨⟨MtkAlg.aes, MtkMode.ctr, MtkHash.hashNull,
      false, false, true⟩, false, 0, 48, 0, b ++ [255, 255, 255, 254],
      [(0, 48)], [(0, 48)], false, sa⟩ = true := by
    simp [sendReqDstAlign, sendReqTotlenDst, blksizeOfAlg, AES_BLOCK_SIZE,
      halign]
  have hsrc1 : sendReqSrc1 ⟨⟨MtkAlg.aes, MtkMode.ctr, MtkHash.hashNull, false,
      false, true⟩, false, 0, 48, 0, b ++ [255, 255, 255, 254], [(0, 48)],
      [(0, 48)], false, sa⟩ = [(0, 48)] := by
    simp [sendReqSrc1, hsrcal]
  have hdst1 : sendReqDst1 ⟨⟨MtkAlg.aes, MtkMode.ctr, MtkHash.hashNull, false,
      false, true⟩, false, 0, 48, 0, b ++ [255, 255, 255, 254], [(0, 48)],
      [(0, 48)], false, sa⟩ = [(0, 48)] := by
    simp [sendReqDst1, hdstal]
  have hsid : sendReqSrcIsDst ⟨⟨MtkAlg.aes, MtkMode.ctr, MtkHash.hashNull,
      false, false, true⟩, false, 0, 48, 0, b ++ [255, 255, 255, 254],
      [(0, 48)], [(0, 48)], false, sa⟩ = false := by
    simp [sendReqSrcIsDst]
  have hmaps1 : sendReqMaps1 ⟨⟨MtkAlg.aes, MtkMode.ctr, MtkHash.hashNull,
      false, false, true⟩, false, 0, 48, 0, b ++ [255, 255, 255, 254],
      [(0, 48)], [(0, 48)], false, sa⟩ = 2 := by
    simp [sendReqMaps1, hsid]
  have hstiv : sendReqStateIv ⟨⟨MtkAlg.aes, MtkMode.ctr, MtkHash.hashNull,
      false, false, true⟩, false, 0, 48, 0, b ++ [255, 255, 255, 254],
      [(0, 48)], [(0, 48)], false, sa⟩ =
      some (b ++ [255, 255, 255, 254]) := by
    simp [sendReqStateIv]
  have hring : sendReqRingSa ⟨⟨MtkAlg.aes, MtkMode.ctr, MtkHash.hashNull,
      false, false, true⟩, false, 0, 48, 0, b ++ [255, 255, 255, 254],
      [(0, 48)], [(0, 48)], false, sa⟩ = sa := by
    simp [sendReqRingSa]
  have hffwd : scatterwalk_ffwd [(0, 48)] 32 = [(32, 16)] := by decide
  rw [mtk_send_req]
  rw [if_neg (by simp)]
  rw [if_neg (by simp)]
  rw [if_neg (by simp [sendReqTotlenSrc, hnents])]
  rw [if_neg (by simp [sendReqTotlenDst, hnents])]
  rw [mtk_send_req_submit]
  rw [if_pos ⟨rfl, rfl, by rw [hend, hctr]; norm_num⟩]
  rw [hsrcal, hdstal, hsid, hmaps1, hoff, hstiv, hwiv, hsrc1, hdst1]
  rw [mtk_send_req_wrapped]
  have hm1 : ([(0, 48)] : List (ℕ × ℕ)).map Prod.snd = [48] := rfl
  rw [hm1, hc1]
  simp only [hffwd, Bool.false_eq_true, if_false, hring]
  have hm2 : ([(32, 16)] : List (ℕ × ℕ)).map Prod.snd = [16] := rfl
  rw [hm2]
  norm_num
  rw [hc2]
  simp

/-- Witness for C1 with the all-zero IV prefix. -/
theorem mtk_send_req_ctr_overflow_split_witness :
    ∃ c : List ℕ, c.length = 12 ∧
      mtk_send_req ⟨⟨MtkAlg.aes, MtkMode.ctr, MtkHash.hashNull, false, false,
          true⟩, false, 0, 48, 0, List.replicate 12 0 ++ [255, 255, 255, 254],
          [(0, 48)], [(0, 48)], false, saRecordZero⟩ =
        { ret := 0
          srcBounced := false
          dstBounced := false
          dmaMapCalls := 4
          submissions := [⟨32, false,
            some (List.replicate 12 0 ++ [255, 255, 255, 254]), [32]⟩,
            ⟨16, true, some (c ++ [0, 0, 0, 0]), [16]⟩]
          commands := 2
          results := 2
          ctxSaAfter := saRecordZero
          ringSa := some saRecordZero } ∧
      32 = AES_BLOCK_SIZE * (2 ^ 32 - 4294967294) ∧
      4294967294 = be32FromBytes 255 255 255 254 :=
  mtk_send_req_ctr_overflow_split (List.replicate 12 0) (by simp) saRecordZero
